import Mathlib

/-
  Verification development for the kml2ofds conflation pipeline
  (src/kml2ofds.py).  The Python functions relevant to the claims are
  shallowly embedded here:

  * coordinates are modelled as pairs of rationals (IEEE doubles idealized
    to exact rational arithmetic);
  * uuid4 identifiers are modelled as natural numbers drawn from a counter
    threaded through the computation (each uuid4 call consumes one value);
  * the JSON round-trip of the start/end endpoint dictionaries
    (json.loads / json.dumps in the mergers) is the identity on the
    embedded record, so endpoint references are kept as structured values;
  * shapely Point.buffer(r) followed by intersects/within is idealized to
    a comparison of squared euclidean distance against r^2 (the polygonal
    buffer approximation of the disk is idealized to the exact disk);
  * shapely split(line, buffered_area) with the tiny 1e-9 node buffers is
    idealized to cutting the polyline exactly at each interior vertex that
    coincides with a matched node position (buffer radius idealized to 0);
  * python set() iteration order is unspecified, so list(set(...)) in
    merge_nearby_auto_gen_nodes is embedded as first-occurrence
    deduplication of the generated sequence; likewise sklearn
    query_radius neighbour lists are enumerated in increasing index order.
-/

attribute [local semireducible] Rat.add Rat.mul Rat.inv Rat.sub

namespace Kml2Ofds

/-- A 2D coordinate (longitude, latitude) with rational components. -/
abbrev Pt := ℚ × ℚ

/-- Squared euclidean distance between two points. -/
def dist2 (p q : Pt) : ℚ := (p.1 - q.1) ^ 2 + (p.2 - q.2) ^ 2

/-- Point on the segment from a to b at parameter t. -/
def lerp (a b : Pt) (t : ℚ) : Pt := (a.1 + t * (b.1 - a.1), a.2 + t * (b.2 - a.2))

/-- Clamp a parameter into the unit interval. -/
def clamp01 (t : ℚ) : ℚ := max 0 (min 1 t)

/-- Unclamped projection parameter of p onto the line through a and b. -/
def projParam (a b p : Pt) : ℚ :=
  ((p.1 - a.1) * (b.1 - a.1) + (p.2 - a.2) * (b.2 - a.2)) / dist2 a b

/-- Closest point to p on the closed segment from a to b
(standard clamped projection, the primitive behind shapely nearest_points). -/
def closestOnSeg (a b p : Pt) : Pt :=
  if dist2 a b = 0 then a else lerp a b (clamp01 (projParam a b p))

/-- Consecutive vertex pairs of a polyline. -/
def segsOf : List Pt → List (Pt × Pt)
  | a :: b :: rest => (a, b) :: segsOf (b :: rest)
  | _ => []

/-- Per-segment closest points of a polyline to p. -/
def nearestCandidates (line : List Pt) (p : Pt) : List Pt :=
  (segsOf line).map (fun ab => closestOnSeg ab.1 ab.2 p)

/-- Running minimum over candidate points, keeping the first point attaining
the minimum squared distance (strict less-than comparison). -/
def pickMin (p : Pt) : List Pt → Option Pt → Option Pt
  | [], acc => acc
  | c :: rest, acc =>
    match acc with
    | none => pickMin p rest (some c)
    | some b => if dist2 p c < dist2 p b then pickMin p rest (some c) else pickMin p rest (some b)

/-- Nearest point of the polyline to p: shapely nearest_points(point, line)[1].
The nearest point on a polyline is the per-segment clamped projection that
minimizes the distance, first minimum first. -/
def nearestOnLine (line : List Pt) (p : Pt) : Option Pt :=
  pickMin p (nearestCandidates line p) none

/-- The loop of snap_to_line over all span geometries: keeps the nearest
line together with the nearest point on it, updating only on strictly
smaller distance (first minimum wins). -/
def bestLine (p : Pt) : List (List Pt) → Option (List Pt × Pt) → Option (List Pt × Pt)
  | [], acc => acc
  | l :: rest, acc =>
    match nearestOnLine l p with
    | none => bestLine p rest acc
    | some c =>
      match acc with
      | none => bestLine p rest (some (l, c))
      | some bb =>
        if dist2 p c < dist2 p bb.2 then bestLine p rest (some (l, c))
        else bestLine p rest (some bb)

/-- Default point used for total list indexing. -/
def dPt : Pt := (0, 0)

/-- Embedding of snap_to_line (src/kml2ofds.py lines 390-421): find the
nearest line and the nearest point on it; if that point is within the
tolerance buffer of the selected line's first or last vertex, snap to that
vertex (start checked first).  With zero lines, returns none. -/
def snap_to_line (p : Pt) (lines : List (List Pt)) (tol : ℚ) : Option Pt :=
  match bestLine p lines none with
  | none => none
  | some bb =>
    let s := bb.1.headD dPt
    let e := bb.1.getLastD dPt
    if dist2 bb.2 s < tol ^ 2 then some s
    else if dist2 bb.2 e < tol ^ 2 then some e
    else some bb.2

/-- Network metadata block copied onto every node and span. -/
structure Network where
  id : String
  name : String
  links : List (String × String)
deriving DecidableEq

/-- Default network. -/
def dNet : Network := ⟨"", "", []⟩

/-- A node record: the geojson node feature of the pipeline
(properties id, name, network and the Point geometry). -/
structure Node where
  id : ℕ
  name : String
  pos : Pt
  network : Network
deriving DecidableEq

/-- Default node used for total list indexing. -/
def dNode : Node := ⟨0, "", dPt, dNet⟩

/-- Rounding to the nearest integer, ties to even
(the behaviour of python round). -/
def roundHalfEven (x : ℚ) : ℤ :=
  let f := Int.floor x
  let frac := x - f
  if frac < 1 / 2 then f
  else if 1 / 2 < frac then f + 1
  else if f % 2 = 0 then f else f + 1

/-- python round(x, p): round to p decimal places, ties to even. -/
def pyRound (x : ℚ) (p : ℕ) : ℚ := (roundHalfEven (x * 10 ^ p) : ℚ) / 10 ^ p

/-- Composite deduplication key of a node: name plus both coordinates
rounded to the given precision (the argument of hash() in
remove_duplicate_nodes; hashing is idealized as injective on keys). -/
def nodeKey (n : Node) (p : ℕ) : String × ℚ × ℚ :=
  (n.name, pyRound n.pos.1 p, pyRound n.pos.2 p)

/-- Loop of remove_duplicate_nodes: keep a node when its key has not been
seen, in input order. -/
def dedupNodesAux (p : ℕ) (seen : List (String × ℚ × ℚ)) : List Node → List Node
  | [] => []
  | n :: ns =>
    if nodeKey n p ∈ seen then dedupNodesAux p seen ns
    else n :: dedupNodesAux p (nodeKey n p :: seen) ns

/-- Embedding of remove_duplicate_nodes (src/kml2ofds.py lines 120-140). -/
def remove_duplicate_nodes (ns : List Node) (p : ℕ) : List Node :=
  dedupNodesAux p [] ns

/-- First-occurrence deduplication (embedding of list(set(...)) with a
deterministic order, and of explicit seen-set loops). -/
def dedupFirstAux {α : Type} [DecidableEq α] (seen : List α) : List α → List α
  | [] => []
  | a :: as =>
    if a ∈ seen then dedupFirstAux seen as else a :: dedupFirstAux (a :: seen) as

/-- First-occurrence deduplication of a list. -/
def dedupFirst {α : Type} [DecidableEq α] (l : List α) : List α := dedupFirstAux [] l

/-- A raw span before splitting: name and polyline geometry. -/
structure RawSpan where
  name : String
  geom : List Pt
deriving DecidableEq

/-- A split span segment as produced by break_spans_at_node_points:
fresh id, geometry, inherited name, featureType span, comma-joined
names of intersecting nodes, network metadata. -/
structure SegOut where
  id : ℕ
  geom : List Pt
  name : String
  featureType : String
  pointNames : String
  network : Network
deriving DecidableEq

/-- Whether the buffer of radius r around q intersects the polyline:
the distance from q to the polyline is at most r. -/
def lineBufferIntersects (line : List Pt) (q : Pt) (r : ℚ) : Bool :=
  match nearestOnLine line q with
  | some c => decide (dist2 q c ≤ r ^ 2)
  | none => false

/-- Node buffer radius used by the span splitter (1e-9 degrees). -/
def bufRadius : ℚ := 1 / 10 ^ 9

/-- Signed area orientation test for three points. -/
def orient (a b c : Pt) : ℚ :=
  (b.1 - a.1) * (c.2 - a.2) - (b.2 - a.2) * (c.1 - a.1)

/-- Whether q lies on the closed segment from a to b. -/
def onSeg (a b q : Pt) : Bool :=
  decide (orient a b q = 0 ∧ min a.1 b.1 ≤ q.1 ∧ q.1 ≤ max a.1 b.1 ∧
    min a.2 b.2 ≤ q.2 ∧ q.2 ≤ max a.2 b.2)

/-- Whether the closed segments a-b and c-d share at least one point. -/
def segsIntersect (a b c d : Pt) : Bool :=
  decide (orient a b c * orient a b d < 0 ∧ orient c d a * orient c d b < 0) ||
    onSeg a b c || onSeg a b d || onSeg c d a || onSeg c d b

/-- Whether two consecutive segments a-b and b-c overlap in more than their
shared vertex b (degenerate or folded-back collinear configuration). -/
def adjacentOverlap (a b c : Pt) : Bool :=
  decide (a = b) || decide (b = c) ||
    (decide (orient a b c = 0) &&
      decide (0 < (a.1 - b.1) * (c.1 - b.1) + (a.2 - b.2) * (c.2 - b.2)))

/-- Default segment for total indexing. -/
def dSeg : Pt × Pt := (dPt, dPt)

/-- Embedding of shapely is_simple on a LineString: no two segments meet
except consecutive segments at their shared vertex (and the closure point
of a closed line). -/
def isSimple (line : List Pt) : Bool :=
  let segs := segsOf line
  let n := segs.length
  (List.range n).all fun i =>
    (List.range n).all fun j =>
      if i < j then
        if j = i + 1 then
          !adjacentOverlap (segs.getD i dSeg).1 (segs.getD j dSeg).1 (segs.getD j dSeg).2
        else if i = 0 && j = n - 1 && decide (line.headD dPt = line.getLastD dPt) then
          !adjacentOverlap (segs.getD j dSeg).1 (segs.getD i dSeg).1 (segs.getD i dSeg).2
        else
          !segsIntersect (segs.getD i dSeg).1 (segs.getD i dSeg).2
            (segs.getD j dSeg).1 (segs.getD j dSeg).2
      else true

/-- Embedding of find_self_intersection (src/kml2ofds.py lines 527-540):
the coordinates the polyline visits more than once (idealizing the
union-with-itself noding to vertex-coincident self-crossings, consistently
with splitting at exact vertices). -/
def find_self_intersection (line : List Pt) : List Pt :=
  dedupFirst (line.filter (fun v => decide (1 < line.count v)))

/-- Walk of the polyline cutting at each interior vertex that is a cut
point; the shared vertex is kept in both pieces (split semantics). -/
def splitGo (cut : List Pt) (acc : List Pt) : List Pt → List (List Pt)
  | [] => [acc.reverse]
  | [v] => [(v :: acc).reverse]
  | v :: w :: rest =>
    if v ∈ cut then (v :: acc).reverse :: splitGo cut [v] (w :: rest)
    else splitGo cut (v :: acc) (w :: rest)

/-- Embedding of shapely split(line, buffered_area): cut the polyline at
every interior vertex coinciding with a cut point (buffer radius
idealized to zero). -/
def splitAtPoints (cut : List Pt) (line : List Pt) : List (List Pt) :=
  match line with
  | [] => []
  | v :: rest => splitGo cut [v] rest

/-- Inner while loop of rejoin_self_intersection_breaks: keep absorbing the
next piece while the shared endpoint is a self-intersection point and two
further pieces remain.  The fuel argument is an upper bound on the number
of iterations (the loop advances the index each time, so fuel equal to the
number of pieces is enough). -/
def rejoinInner (pieces : List (List Pt)) (inter : List Pt) :
    ℕ → ℕ → List Pt → List Pt → ℕ × List Pt
  | 0, i, joined, _ => (i, joined)
  | fuel + 1, i, joined, nxt =>
    let cur := pieces.getD i []
    if cur.getLastD dPt = nxt.headD dPt ∧ nxt.headD dPt ∈ inter ∧
        i + 2 < pieces.length then
      rejoinInner pieces inter fuel (i + 1) (joined.dropLast ++ nxt.tail)
        (pieces.getD (i + 2) [])
    else (i, joined)

/-- Outer loop of rejoin_self_intersection_breaks, with fuel as above. -/
def rejoinOuter (pieces : List (List Pt)) (inter : List Pt) : ℕ → ℕ → List (List Pt)
  | 0, _ => []
  | fuel + 1, i =>
    if i < pieces.length then
      let cur := pieces.getD i []
      if i + 1 < pieces.length then
        let nxt := pieces.getD (i + 1) []
        if cur.getLastD dPt = nxt.headD dPt ∧ nxt.headD dPt ∈ inter then
          let nxt1 := if i + 2 < pieces.length then pieces.getD (i + 2) [] else nxt
          let res := rejoinInner pieces inter pieces.length (i + 1)
            (cur.dropLast ++ nxt.tail) nxt1
          res.2 :: rejoinOuter pieces inter fuel (res.1 + 1)
        else cur :: rejoinOuter pieces inter fuel (i + 1)
      else cur :: rejoinOuter pieces inter fuel (i + 1)
    else []

/-- Embedding of rejoin_self_intersection_breaks
(src/kml2ofds.py lines 543-589). -/
def rejoin_self_intersection_breaks (pieces : List (List Pt)) (inter : List Pt) :
    List (List Pt) :=
  rejoinOuter pieces inter (pieces.length + 1) 0

/-- Emission loop of the splitter: keep only pieces with more than 2
vertices, each with a fresh id, the span name, featureType span and the
joined point names. -/
def emitSegments (name pnames : String) (net : Network) :
    List (List Pt) → ℕ → List SegOut × ℕ
  | [], c => ([], c)
  | piece :: rest, c =>
    if 2 < piece.length then
      let (segs, cf) := emitSegments name pnames net rest (c + 1)
      (⟨c, piece, name, "span", pnames, net⟩ :: segs, cf)
    else emitSegments name pnames net rest c

/-- Per-span body of break_spans_at_node_points
(src/kml2ofds.py lines 447-506): collect the nodes whose 1e-9 buffer
intersects the span, split at them (handling self-intersecting lines with
the rejoin step), and keep only resulting pieces with more than 2
vertices; with no intersecting node, keep the original polyline when it
has more than 2 vertices, else drop it. -/
def breakOneSpan (nodes : List Node) (net : Network) (sp : RawSpan) (c : ℕ) :
    List SegOut × ℕ :=
  let matched := nodes.filter (fun nd => lineBufferIntersects sp.geom nd.pos bufRadius)
  let pnames := String.intercalate ", " (matched.map Node.name)
  if matched.isEmpty then
    if 2 < sp.geom.length then ([⟨c, sp.geom, sp.name, "span", "", net⟩], c + 1)
    else ([], c)
  else
    let pieces :=
      if isSimple sp.geom then splitAtPoints (matched.map Node.pos) sp.geom
      else
        rejoin_self_intersection_breaks
          (splitAtPoints (matched.map Node.pos ++ find_self_intersection sp.geom) sp.geom)
          (find_self_intersection sp.geom)
    emitSegments sp.name pnames net pieces c

/-- Embedding of break_spans_at_node_points (src/kml2ofds.py lines 424-524),
iterating breakOneSpan over all spans with a fresh-id counter. -/
def break_spans_at_node_points (nodes : List Node) (spans : List RawSpan)
    (net : Network) (c0 : ℕ) : List SegOut :=
  (spans.foldl (fun acc sp =>
    let r := breakOneSpan nodes net sp acc.2
    (acc.1 ++ r.1, r.2)) (([] : List SegOut), c0)).1

/-- Embedding of append_node (src/kml2ofds.py lines 948-959): a synthesized
node at the given coordinates with a fresh id. -/
def append_node (coords : Pt) (net : Network) (c : ℕ) : Node :=
  ⟨c, "Auto generated missing node", coords, net⟩

/-- Loop of add_missing_nodes over the spans: for each span, if no existing
node is within the tolerance buffer of the first (resp. last) vertex,
synthesize a node there unless a node with exactly equal position was
already synthesized in this pass (the discarded candidate still consumes a
fresh id, as the discarded uuid4 does).  This helper is the per-endpoint
block that the source duplicates verbatim for the start and end vertex. -/
def maybeAddNode (nodes : List Node) (net : Network) (tol : ℚ) (pt : Pt)
    (acc : List Node) (c : ℕ) : List Node × ℕ :=
  if nodes.any (fun n => decide (dist2 n.pos pt ≤ tol ^ 2)) then (acc, c)
  else if acc.any (fun m => decide (m.pos = pt)) then (acc, c + 1)
  else (acc ++ [append_node pt net c], c + 1)

/-- Loop of add_missing_nodes over the spans, applying the per-endpoint
block to the first and then the last vertex of each span. -/
def addMissingAux (nodes : List Node) (net : Network) (tol : ℚ) :
    List SegOut → List Node → ℕ → List Node × ℕ
  | [], acc, c => (acc, c)
  | sp :: rest, acc, c =>
    let step1 := maybeAddNode nodes net tol (sp.geom.headD dPt) acc c
    let step2 := maybeAddNode nodes net tol (sp.geom.getLastD dPt) step1.1 step1.2
    addMissingAux nodes net tol rest step2.1 step2.2

/-- Embedding of add_missing_nodes (src/kml2ofds.py lines 592-633): returns
the combined node list (original nodes first), the newly synthesized
nodes, and the advanced id counter. -/
def add_missing_nodes (spans : List SegOut) (nodes : List Node) (net : Network)
    (tol : ℚ) (c0 : ℕ) : List Node × List Node × ℕ :=
  let r := addMissingAux nodes net tol spans [] c0
  (nodes ++ r.1, r.1, r.2)

/-- A span endpoint reference: the id, name, location dictionary stored in
the start and end fields by add_nodes_to_spans. -/
structure EndRef where
  id : ℕ
  name : String
  location : Pt
deriving DecidableEq

/-- A fully linked span as seen by the node mergers. -/
structure MSpan where
  id : ℕ
  name : String
  geom : List Pt
  startRef : EndRef
  endRef : EndRef
  pointNames : String
  network : Network
deriving DecidableEq

/-- Default span used for total list indexing. -/
def dMSpan : MSpan := ⟨0, "", [], ⟨0, "", dPt⟩, ⟨0, "", dPt⟩, "", dNet⟩

/-- Radius-query neighbour lists (sklearn KDTree query_radius): for each
point, the indices of all points within the radius, in increasing index
order, keeping only lists with more than one member. -/
def closeLists (coords : List Pt) (r : ℚ) : List (List ℕ) :=
  ((List.range coords.length).map (fun i =>
    (List.range coords.length).filter (fun j =>
      decide (dist2 (coords.getD i dPt) (coords.getD j dPt) ≤ r ^ 2)))).filter
    (fun l => decide (1 < l.length))

/-- Pair generation of merge_nearby_auto_gen_nodes: all ordered pairs of
distinct members of each neighbour list, canonicalized to
(min index, max index) and deduplicated. -/
def canonPairs (ls : List (List ℕ)) : List (ℕ × ℕ) :=
  dedupFirst (ls.flatMap (fun sub => sub.flatMap (fun i =>
    sub.filterMap (fun j => if i ≠ j then some (min i j, max i j) else none))))

/-- Shared per-span rewrite loop of both merger passes, over a list of
(loser, survivor) node pairs.  When the span's current start id equals the
loser's id, the start id is rewritten to the survivor's id, the first
geometry vertex is rewritten to the survivor's position, and the loser's
id is recorded; else the same is tried on the end id and the last vertex.
The geometry is always rewritten starting from the original geometry of
the span (the python loop rereads the stale iterrows row copy), and the
recorded location and name of the endpoint references are never touched
(only the id key is assigned). -/
def mergePairsStep (orig : List Pt) :
    List (Node × Node) → EndRef → EndRef → List Pt → List ℕ →
      EndRef × EndRef × List Pt × List ℕ
  | [], sd, ed, g, m => (sd, ed, g, m)
  | q :: rest, sd, ed, g, m =>
    if sd.id = q.1.id then
      mergePairsStep orig rest ⟨q.2.id, sd.name, sd.location⟩ ed
        (orig.set 0 q.2.pos) (m ++ [q.1.id])
    else if ed.id = q.1.id then
      mergePairsStep orig rest sd ⟨q.2.id, ed.name, ed.location⟩
        (orig.set (orig.length - 1) q.2.pos) (m ++ [q.1.id])
    else mergePairsStep orig rest sd ed g m

/-- Rewrite one span against all merge pairs. -/
def mergeOneSpan (ps : List (Node × Node)) (sp : MSpan) (m : List ℕ) :
    MSpan × List ℕ :=
  let r := mergePairsStep sp.geom ps sp.startRef sp.endRef sp.geom m
  (⟨sp.id, sp.name, r.2.2.1, r.1, r.2.1, sp.pointNames, sp.network⟩, r.2.2.2)

/-- Rewrite all spans in order, accumulating the merged (dropped) node ids. -/
def mergeSpans (ps : List (Node × Node)) : List MSpan → List ℕ → List MSpan × List ℕ
  | [], m => ([], m)
  | sp :: rest, m =>
    let r1 := mergeOneSpan ps sp m
    let r2 := mergeSpans ps rest r1.2
    (r1.1 :: r2.1, r2.2)

/-- Embedding of merge_nearby_auto_gen_nodes (src/kml2ofds.py lines
705-795, pass A): restrict to auto-generated nodes, pair up nodes sharing
a radius neighbourhood (loser = higher filtered index, survivor = lower),
rewrite every span endpoint reference and geometry vertex accordingly, and
drop the nodes whose ids were recorded as merged.  Returns (spans, nodes)
like the source. -/
def merge_nearby_auto_gen_nodes (nodes : List Node) (spans : List MSpan)
    (threshold : ℚ) : List MSpan × List Node :=
  let filtered := nodes.filter (fun n => decide (n.name = "Auto generated missing node"))
  if filtered.isEmpty then (spans, nodes)
  else
    let pairs := canonPairs (closeLists (filtered.map Node.pos) threshold)
    let ps := pairs.map (fun pr => (filtered.getD pr.2 dNode, filtered.getD pr.1 dNode))
    let r := mergeSpans ps spans []
    (r.1, nodes.filter (fun n => decide (n.id ∉ r.2)))

/-- Cluster filtering of merge_nearby_auto_gen_and_proper_nodes: keep
clusters containing an auto-generated node, moving the first such node to
the front; the reorder filters members by comparison with the position
(not the value) of the auto-generated node, exactly as the source does. -/
def reorderCluster (nodes : List Node) (cluster : List ℕ) : Option (List ℕ) :=
  let names := cluster.map (fun i => (nodes.getD i dNode).name)
  if "Auto generated missing node" ∈ names then
    let k := names.indexOf "Auto generated missing node"
    some (if k ≠ 0 then cluster.getD k 0 :: cluster.filter (fun i => decide (i ≠ k))
      else cluster)
  else none

/-- Embedding of merge_nearby_auto_gen_and_proper_nodes (src/kml2ofds.py
lines 798-880, pass B): cluster all nodes by radius, keep clusters with an
auto-generated member reordered to the front, then rewrite spans with
loser = first cluster member and survivor = second, and drop merged ids.
(The source would raise on an empty node list when building the KDTree;
the embedding then finds no clusters and changes nothing.) -/
def merge_nearby_auto_gen_and_proper_nodes (nodes : List Node) (spans : List MSpan)
    (threshold : ℚ) : List MSpan × List Node :=
  let clusters := closeLists (nodes.map Node.pos) threshold
  let found := clusters.filterMap (reorderCluster nodes)
  let ps := found.map (fun cl =>
    (nodes.getD (cl.getD 0 0) dNode, nodes.getD (cl.getD 1 0) dNode))
  let r := mergeSpans ps spans []
  (r.1, nodes.filter (fun n => decide (n.id ∉ r.2)))

/-- Frame predicate for the merger passes: everything about a span except
its endpoint references and its first and last geometry vertex is
unchanged, and the vertex count is preserved. -/
def spanFrame (a b : MSpan) : Prop :=
  b.id = a.id ∧ b.name = a.name ∧ b.pointNames = a.pointNames ∧
    b.network = a.network ∧ b.geom.length = a.geom.length ∧
    ∀ k, k ≠ 0 → k + 1 ≠ a.geom.length → b.geom.getD k dPt = a.geom.getD k dPt

/-- Concrete input: four auto-generated nodes forming a chain, with
consecutive nodes within 1e-1 of each other but nothing else. -/
def chainNodes : List Node :=
  [⟨10, "Auto generated missing node", (0, 0), dNet⟩,
   ⟨11, "Auto generated missing node", (9 / 100, 0), dNet⟩,
   ⟨12, "Auto generated missing node", (18 / 100, 0), dNet⟩,
   ⟨13, "Auto generated missing node", (27 / 100, 0), dNet⟩]

/-- Concrete input: two spans starting at the second and fourth chain
node respectively. -/
def chainSpans : List MSpan :=
  [⟨100, "T", [(9 / 100, 0), (5, 0), (6, 0)],
    ⟨11, "Auto generated missing node", (9 / 100, 0)⟩, ⟨999, "X", (6, 0)⟩, "", dNet⟩,
   ⟨101, "S", [(27 / 100, 0), (3, 0), (4, 0)],
    ⟨13, "Auto generated missing node", (27 / 100, 0)⟩, ⟨998, "Y", (4, 0)⟩, "", dNet⟩]

/-- Spans and nodes of the chain input after merger pass A with threshold
1e-1 followed by pass B with threshold 1e-3. -/
def chainResult : List MSpan × List Node :=
  merge_nearby_auto_gen_and_proper_nodes
    (merge_nearby_auto_gen_nodes chainNodes chainSpans (1 / 10)).2
    (merge_nearby_auto_gen_nodes chainNodes chainSpans (1 / 10)).1 (1 / 1000)

/-- Concrete input: two auto-generated nodes within 1e-3 of each other. -/
def twoAutoNodes : List Node :=
  [⟨1, "Auto generated missing node", (0, 0), dNet⟩,
   ⟨2, "Auto generated missing node", (1 / 2000, 0), dNet⟩]

/-- Concrete input: a span starting at the first of the two auto nodes. -/
def twoAutoSpans : List MSpan :=
  [⟨50, "B", [(0, 0), (1, 0), (2, 0)],
    ⟨1, "Auto generated missing node", (0, 0)⟩, ⟨900, "Z", (2, 0)⟩, "", dNet⟩]

/-
  Theorems.  Helper lemmas first, then one theorem per claim (each claim
  theorem carries a doc comment naming the claim), with witnesses and
  counterexamples where required.
-/

theorem dedupNodesAux_idem (p : ℕ) (ns : List Node) :
    ∀ seen, dedupNodesAux p seen (dedupNodesAux p seen ns) = dedupNodesAux p seen ns := by
  induction ns with
  | nil => intro seen; simp [dedupNodesAux]
  | cons n ns ih =>
    intro seen
    by_cases h : nodeKey n p ∈ seen
    · simp [dedupNodesAux, h, ih]
    · simp [dedupNodesAux, h, ih]

/-- C4: remove_duplicate_nodes is idempotent: for every node list and
every rounding precision, applying the deduplicator to its own output
removes nothing and returns the list unchanged. -/
theorem remove_duplicate_nodes_idem (ns : List Node) (p : ℕ) :
    remove_duplicate_nodes (remove_duplicate_nodes ns p) p = remove_duplicate_nodes ns p := by
  unfold remove_duplicate_nodes
  exact dedupNodesAux_idem p ns []

/-- C6: with an empty collection of span geometries, snap_to_line returns
no snap target. -/
theorem snap_to_line_empty (p : Pt) (tol : ℚ) : snap_to_line p [] tol = none := rfl

/-- C2 counterexample: on the single span with vertices (0,0),(1,0),(2,0)
and the single node at (1,0), the splitter does not return the two
2-vertex segments the claim describes (its output is in fact empty,
because both pieces fail the more-than-2-vertices filter). -/
theorem break_spans_scenario2_cex :
    (break_spans_at_node_points [⟨7, "Node A", (1, 0), dNet⟩]
        [⟨"Original Span", [(0, 0), (1, 0), (2, 0)]⟩] dNet 0).map SegOut.geom ≠
      [[((0 : ℚ), (0 : ℚ)), (1, 0)], [(1, 0), (2, 0)]] := by
  decide

/-- C2 amended: splitting the span (0,0),(1,0),(2,0) at the node (1,0)
produces exactly the two pieces (0,0),(1,0) and (1,0),(2,0) (the 1e-9
buffer idealized to zero radius), but both have only 2 vertices, so the
more-than-2-vertices filter drops them and the output contains no segment
for this span; in particular the two claimed segments are never emitted. -/
theorem break_spans_scenario2_amended :
    splitAtPoints [((1 : ℚ), (0 : ℚ))] [(0, 0), (1, 0), (2, 0)] =
        [[((0 : ℚ), (0 : ℚ)), (1, 0)], [(1, 0), (2, 0)]] ∧
      break_spans_at_node_points [⟨7, "Node A", (1, 0), dNet⟩]
        [⟨"Original Span", [(0, 0), (1, 0), (2, 0)]⟩] dNet 0 = [] := by
  constructor
  · decide
  · decide

/-- C3 counterexample: a 2-vertex span intersected by no node buffer is
dropped, not emitted as a single segment, so the splitter does not keep
such a span regardless of vertex count. -/
theorem break_spans_no_intersection_cex :
    (break_spans_at_node_points [] [⟨"s", [(0, 0), (1, 0)]⟩] dNet 0).length ≠ 1 := by
  decide

/-- C3 amended: a span intersected by no node buffer is emitted unchanged
as a single segment provided it has more than 2 vertices (2-vertex spans
are dropped by the splitter). -/
theorem break_spans_no_intersection_keeps (nodes : List Node) (net : Network)
    (sp : RawSpan) (c : ℕ)
    (hno : ∀ nd ∈ nodes, lineBufferIntersects sp.geom nd.pos bufRadius = false)
    (hlen : 2 < sp.geom.length) :
    (breakOneSpan nodes net sp c).1 = [⟨c, sp.geom, sp.name, "span", "", net⟩] := by
  have hfilter : nodes.filter (fun nd => lineBufferIntersects sp.geom nd.pos bufRadius) = [] := by
    rw [List.filter_eq_nil_iff]
    intro nd hnd
    simp [hno nd hnd]
  unfold breakOneSpan
  rw [hfilter]
  simp [hlen]

/-- Witness for the amended C3 theorem at a concrete input. -/
theorem break_spans_no_intersection_keeps_witness :
    (∀ nd ∈ ([] : List Node),
        lineBufferIntersects [((0 : ℚ), (0 : ℚ)), (1, 0), (2, 0)] nd.pos bufRadius = false) ∧
      2 < [((0 : ℚ), (0 : ℚ)), (1, 0), (2, 0)].length ∧
      (breakOneSpan [] dNet ⟨"s", [(0, 0), (1, 0), (2, 0)]⟩ 5).1 =
        [⟨5, [(0, 0), (1, 0), (2, 0)], "s", "span", "", dNet⟩] :=
  ⟨by simp, by decide,
    break_spans_no_intersection_keeps [] dNet ⟨"s", [(0, 0), (1, 0), (2, 0)]⟩ 5
      (by simp) (by decide)⟩

theorem getD_set_ne {α : Type} (l : List α) (v d : α) :
    ∀ j k, j ≠ k → (l.set j v).getD k d = l.getD k d := by
  induction l with
  | nil => intro j k h; simp
  | cons a t ih =>
    intro j k h
    cases j with
    | zero =>
      cases k with
      | zero => exact absurd rfl h
      | succ k2 => simp [List.set]
    | succ j2 =>
      cases k with
      | zero => simp [List.set]
      | succ k2 => simpa [List.set] using ih j2 k2 (by omega)

theorem mergePairsStep_decomp (orig : List Pt) (ps : List (Node × Node)) :
    ∀ sd ed g m,
      mergePairsStep orig ps sd ed g m =
        ((mergePairsStep orig ps sd ed g []).1,
         (mergePairsStep orig ps sd ed g []).2.1,
         (mergePairsStep orig ps sd ed g []).2.2.1,
         m ++ (mergePairsStep orig ps sd ed g []).2.2.2) := by
  induction ps with
  | nil => intro sd ed g m; simp [mergePairsStep]
  | cons q rest ih =>
    intro sd ed g m
    by_cases h1 : sd.id = q.1.id
    · simp only [mergePairsStep, if_pos h1]
      rw [ih _ _ _ (m ++ [q.1.id]), ih _ _ _ ([] ++ [q.1.id])]
      simp
    · by_cases h2 : ed.id = q.1.id
      · simp only [mergePairsStep, if_neg h1, if_pos h2]
        rw [ih _ _ _ (m ++ [q.1.id]), ih _ _ _ ([] ++ [q.1.id])]
        simp
      · simp only [mergePairsStep, if_neg h1, if_neg h2]
        exact ih _ _ _ m

theorem mergePairsStep_refs (orig : List Pt) (ps : List (Node × Node)) :
    ∀ sd ed g m,
      (mergePairsStep orig ps sd ed g m).1.name = sd.name ∧
      (mergePairsStep orig ps sd ed g m).1.location = sd.location ∧
      (mergePairsStep orig ps sd ed g m).2.1.name = ed.name ∧
      (mergePairsStep orig ps sd ed g m).2.1.location = ed.location := by
  induction ps with
  | nil => intro sd ed g m; simp [mergePairsStep]
  | cons q rest ih =>
    intro sd ed g m
    by_cases h1 : sd.id = q.1.id
    · simpa [mergePairsStep, if_pos h1] using ih ⟨q.2.id, sd.name, sd.location⟩ ed _ _
    · by_cases h2 : ed.id = q.1.id
      · simpa [mergePairsStep, if_neg h1, if_pos h2] using
          ih sd ⟨q.2.id, ed.name, ed.location⟩ _ _
      · simpa [mergePairsStep, if_neg h1, if_neg h2] using ih sd ed g m

/-- The geometry produced by the merger rewrite loop is always the original
geometry with at most the first or the last vertex replaced. -/
def geomForm (orig g : List Pt) : Prop :=
  g = orig ∨ (∃ v, g = orig.set 0 v) ∨ ∃ v, g = orig.set (orig.length - 1) v

theorem mergePairsStep_geom (orig : List Pt) (ps : List (Node × Node)) :
    ∀ sd ed g m, geomForm orig g →
      geomForm orig (mergePairsStep orig ps sd ed g m).2.2.1 := by
  induction ps with
  | nil => intro sd ed g m hg; simpa [mergePairsStep] using hg
  | cons q rest ih =>
    intro sd ed g m hg
    by_cases h1 : sd.id = q.1.id
    · simp only [mergePairsStep, if_pos h1]
      exact ih _ _ _ _ (Or.inr (Or.inl ⟨q.2.pos, rfl⟩))
    · by_cases h2 : ed.id = q.1.id
      · simp only [mergePairsStep, if_neg h1, if_pos h2]
        exact ih _ _ _ _ (Or.inr (Or.inr ⟨q.2.pos, rfl⟩))
      · simp only [mergePairsStep, if_neg h1, if_neg h2]
        exact ih _ _ _ _ hg

theorem mergePairsStep_merged (orig : List Pt) (ps : List (Node × Node)) :
    ∀ sd ed g m x, x ∈ (mergePairsStep orig ps sd ed g m).2.2.2 →
      x ∈ m ∨ ∃ q ∈ ps, x = q.1.id := by
  induction ps with
  | nil =>
    intro sd ed g m x hx
    exact Or.inl (by simpa [mergePairsStep] using hx)
  | cons q rest ih =>
    intro sd ed g m x hx
    by_cases h1 : sd.id = q.1.id
    · simp only [mergePairsStep, if_pos h1] at hx
      rcases ih _ _ _ _ _ hx with hm | ⟨q2, hq2, hx2⟩
      · rcases List.mem_append.mp hm with hm2 | hm2
        · exact Or.inl hm2
        · exact Or.inr ⟨q, List.mem_cons_self q rest, by simpa using hm2⟩
      · exact Or.inr ⟨q2, List.mem_cons_of_mem q hq2, hx2⟩
    · by_cases h2 : ed.id = q.1.id
      · simp only [mergePairsStep, if_neg h1, if_pos h2] at hx
        rcases ih _ _ _ _ _ hx with hm | ⟨q2, hq2, hx2⟩
        · rcases List.mem_append.mp hm with hm2 | hm2
          · exact Or.inl hm2
          · exact Or.inr ⟨q, List.mem_cons_self q rest, by simpa using hm2⟩
        · exact Or.inr ⟨q2, List.mem_cons_of_mem q hq2, hx2⟩
      · simp only [mergePairsStep, if_neg h1, if_neg h2] at hx
        rcases ih _ _ _ _ _ hx with hm | ⟨q2, hq2, hx2⟩
        · exact Or.inl hm
        · exact Or.inr ⟨q2, List.mem_cons_of_mem q hq2, hx2⟩

theorem mergeOneSpan_fst_indep (ps : List (Node × Node)) (sp : MSpan) (m : List ℕ) :
    (mergeOneSpan ps sp m).1 = (mergeOneSpan ps sp []).1 := by
  unfold mergeOneSpan
  rw [mergePairsStep_decomp sp.geom ps sp.startRef sp.endRef sp.geom m]

theorem mergeSpans_fst (ps : List (Node × Node)) :
    ∀ sps m, (mergeSpans ps sps m).1 = sps.map (fun sp => (mergeOneSpan ps sp []).1) := by
  intro sps
  induction sps with
  | nil => intro m; simp [mergeSpans]
  | cons sp rest ih =>
    intro m
    simp only [mergeSpans, List.map_cons]
    rw [mergeOneSpan_fst_indep, ih]

theorem mergeSpans_merged (ps : List (Node × Node)) :
    ∀ sps m x, x ∈ (mergeSpans ps sps m).2 → x ∈ m ∨ ∃ q ∈ ps, x = q.1.id := by
  intro sps
  induction sps with
  | nil => intro m x hx; exact Or.inl (by simpa [mergeSpans] using hx)
  | cons sp rest ih =>
    intro m x hx
    simp only [mergeSpans] at hx
    rcases ih _ _ hx with hm | hq
    · exact mergePairsStep_merged sp.geom ps sp.startRef sp.endRef sp.geom m x hm
    · exact Or.inr hq

theorem mergeOneSpan_refs (ps : List (Node × Node)) (sp : MSpan) (m : List ℕ) :
    (mergeOneSpan ps sp m).1.startRef.location = sp.startRef.location ∧
      (mergeOneSpan ps sp m).1.endRef.location = sp.endRef.location := by
  unfold mergeOneSpan
  have h := mergePairsStep_refs sp.geom ps sp.startRef sp.endRef sp.geom m
  exact ⟨h.2.1, h.2.2.2⟩

theorem spanFrame_refl (a : MSpan) : spanFrame a a :=
  ⟨rfl, rfl, rfl, rfl, rfl, fun _ _ _ => rfl⟩

theorem mergeOneSpan_frame (ps : List (Node × Node)) (sp : MSpan) (m : List ℕ) :
    spanFrame sp (mergeOneSpan ps sp m).1 := by
  have hg : geomForm sp.geom (mergeOneSpan ps sp m).1.geom := by
    unfold mergeOneSpan
    exact mergePairsStep_geom sp.geom ps sp.startRef sp.endRef sp.geom m (Or.inl rfl)
  refine ⟨rfl, rfl, rfl, rfl, ?_, ?_⟩
  · rcases hg with h | ⟨v, h⟩ | ⟨v, h⟩ <;> simp [h]
  · intro k hk0 hk1
    rcases hg with h | ⟨v, h⟩ | ⟨v, h⟩
    · rw [h]
    · rw [h, getD_set_ne]
      omega
    · rw [h, getD_set_ne]
      omega

theorem getD_rel_of_map {P : MSpan → MSpan → Prop} {f : MSpan → MSpan}
    (hf : ∀ sp, P sp (f sp)) (hd : P dMSpan dMSpan) :
    ∀ (l : List MSpan) (i : ℕ), P (l.getD i dMSpan) ((l.map f).getD i dMSpan) := by
  intro l
  induction l with
  | nil => intro i; simpa using hd
  | cons sp rest ih =>
    intro i
    cases i with
    | zero => simpa using hf sp
    | succ i2 => simpa using ih i2

theorem merge_pass_a_getD_rel (P : MSpan → MSpan → Prop)
    (hP : ∀ ps sp m, P sp (mergeOneSpan ps sp m).1) (hrefl : ∀ sp, P sp sp)
    (nodes : List Node) (spans : List MSpan) (r : ℚ) (i : ℕ) :
    P (spans.getD i dMSpan) ((merge_nearby_auto_gen_nodes nodes spans r).1.getD i dMSpan) := by
  unfold merge_nearby_auto_gen_nodes
  by_cases hemp :
      (nodes.filter (fun n => decide (n.name = "Auto generated missing node"))).isEmpty
  · simp only [hemp, if_pos]
    exact hrefl _
  · simp only [hemp, Bool.false_eq_true, if_neg, not_false_iff]
    rw [mergeSpans_fst]
    exact getD_rel_of_map (fun sp => hP _ sp []) (hrefl dMSpan) spans i

theorem merge_pass_b_getD_rel (P : MSpan → MSpan → Prop)
    (hP : ∀ ps sp m, P sp (mergeOneSpan ps sp m).1) (hrefl : ∀ sp, P sp sp)
    (nodes : List Node) (spans : List MSpan) (r : ℚ) (i : ℕ) :
    P (spans.getD i dMSpan)
      ((merge_nearby_auto_gen_and_proper_nodes nodes spans r).1.getD i dMSpan) := by
  unfold merge_nearby_auto_gen_and_proper_nodes
  rw [mergeSpans_fst]
  exact getD_rel_of_map (fun sp => hP _ sp []) (hrefl dMSpan) spans i

/-- C1 counterexample: pass A merges the auto-generated node 21 at
(1/20, 0) into the auto-generated node 20 at (0, 0); the span that
referenced node 21 gets its first geometry vertex rewritten to (0, 0),
but its recorded start position stays (1/20, 0), so after the pass the
recorded start position differs from the first geometry vertex. -/
theorem merger_conservation_cex :
    ((merge_nearby_auto_gen_nodes
        [⟨20, "Auto generated missing node", (0, 0), dNet⟩,
         ⟨21, "Auto generated missing node", (1 / 20, 0), dNet⟩]
        [⟨100, "sp", [(1 / 20, 0), (1, 0), (2, 0)],
          ⟨21, "Auto generated missing node", (1 / 20, 0)⟩, ⟨30, "End", (2, 0)⟩, "",
          dNet⟩] (1 / 10)).1.getD 0 dMSpan).startRef.location ≠
      ((merge_nearby_auto_gen_nodes
        [⟨20, "Auto generated missing node", (0, 0), dNet⟩,
         ⟨21, "Auto generated missing node", (1 / 20, 0), dNet⟩]
        [⟨100, "sp", [(1 / 20, 0), (1, 0), (2, 0)],
          ⟨21, "Auto generated missing node", (1 / 20, 0)⟩, ⟨30, "End", (2, 0)⟩, "",
          dNet⟩] (1 / 10)).1.getD 0 dMSpan).geom.headD dPt := by
  decide

/-- C1 amended: the merger passes never update the recorded start and end
positions of a span: after either pass the recorded positions are exactly
what they were before the pass (only the reference id and the geometry
endpoint vertex are rewritten), so the recorded position need not equal
the corresponding geometry vertex for a rewritten span. -/
theorem merger_passes_preserve_recorded_positions
    (nodes : List Node) (spans : List MSpan) (r : ℚ) (i : ℕ) :
    ((merge_nearby_auto_gen_nodes nodes spans r).1.getD i dMSpan).startRef.location =
        (spans.getD i dMSpan).startRef.location ∧
      ((merge_nearby_auto_gen_nodes nodes spans r).1.getD i dMSpan).endRef.location =
        (spans.getD i dMSpan).endRef.location ∧
      ((merge_nearby_auto_gen_and_proper_nodes nodes spans r).1.getD i
            dMSpan).startRef.location =
        (spans.getD i dMSpan).startRef.location ∧
      ((merge_nearby_auto_gen_and_proper_nodes nodes spans r).1.getD i
            dMSpan).endRef.location =
        (spans.getD i dMSpan).endRef.location := by
  have hA := merge_pass_a_getD_rel
    (fun a b => b.startRef.location = a.startRef.location ∧
      b.endRef.location = a.endRef.location)
    (fun ps sp m => mergeOneSpan_refs ps sp m) (fun sp => ⟨rfl, rfl⟩) nodes spans r i
  have hB := merge_pass_b_getD_rel
    (fun a b => b.startRef.location = a.startRef.location ∧
      b.endRef.location = a.endRef.location)
    (fun ps sp m => mergeOneSpan_refs ps sp m) (fun sp => ⟨rfl, rfl⟩) nodes spans r i
  exact ⟨hA.1, hA.2, hB.1, hB.2⟩

/-- C10: each merger pass keeps the span collection's length and order and
changes, for every span, at most the first geometry vertex, the last
geometry vertex and the endpoint references: id, name, pointNames,
network, interior vertices and vertex count are unchanged. -/
theorem merger_passes_frame (nodes : List Node) (spans : List MSpan) (r : ℚ) :
    (merge_nearby_auto_gen_nodes nodes spans r).1.length = spans.length ∧
      (merge_nearby_auto_gen_and_proper_nodes nodes spans r).1.length = spans.length ∧
      ∀ i, spanFrame (spans.getD i dMSpan)
          ((merge_nearby_auto_gen_nodes nodes spans r).1.getD i dMSpan) ∧
        spanFrame (spans.getD i dMSpan)
          ((merge_nearby_auto_gen_and_proper_nodes nodes spans r).1.getD i dMSpan) := by
  refine ⟨?_, ?_, ?_⟩
  · unfold merge_nearby_auto_gen_nodes
    by_cases hemp :
        (nodes.filter (fun n => decide (n.name = "Auto generated missing node"))).isEmpty
    · simp [hemp]
    · simp only [hemp, Bool.false_eq_true, if_neg, not_false_iff]
      rw [mergeSpans_fst]
      simp
  · unfold merge_nearby_auto_gen_and_proper_nodes
    rw [mergeSpans_fst]
    simp
  · intro i
    exact ⟨merge_pass_a_getD_rel spanFrame (fun ps sp m => mergeOneSpan_frame ps sp m)
        spanFrame_refl nodes spans r i,
      merge_pass_b_getD_rel spanFrame (fun ps sp m => mergeOneSpan_frame ps sp m)
        spanFrame_refl nodes spans r i⟩

/-- Witness for the C10 frame theorem at a concrete input: the length and
an interior vertex are preserved by pass A. -/
theorem merger_passes_frame_witness :
    (merge_nearby_auto_gen_nodes
        [⟨20, "Auto generated missing node", (0, 0), dNet⟩,
         ⟨21, "Auto generated missing node", (1 / 20, 0), dNet⟩]
        [⟨100, "sp", [(1 / 20, 0), (1, 0), (2, 0)],
          ⟨21, "Auto generated missing node", (1 / 20, 0)⟩, ⟨30, "End", (2, 0)⟩, "",
          dNet⟩] (1 / 10)).1.length = 1 ∧
      ((merge_nearby_auto_gen_nodes
        [⟨20, "Auto generated missing node", (0, 0), dNet⟩,
         ⟨21, "Auto generated missing node", (1 / 20, 0), dNet⟩]
        [⟨100, "sp", [(1 / 20, 0), (1, 0), (2, 0)],
          ⟨21, "Auto generated missing node", (1 / 20, 0)⟩, ⟨30, "End", (2, 0)⟩, "",
          dNet⟩] (1 / 10)).1.getD 0 dMSpan).geom.getD 1 dPt = (1, 0) := by
  have h := merger_passes_frame
    [⟨20, "Auto generated missing node", (0, 0), dNet⟩,
     ⟨21, "Auto generated missing node", (1 / 20, 0), dNet⟩]
    [⟨100, "sp", [(1 / 20, 0), (1, 0), (2, 0)],
      ⟨21, "Auto generated missing node", (1 / 20, 0)⟩, ⟨30, "End", (2, 0)⟩, "", dNet⟩]
    (1 / 10)
  refine ⟨h.1, ?_⟩
  have h2 := ((h.2.2 0).1).2.2.2.2.2 1 (by decide) (by decide)
  rw [h2]
  decide

theorem pass_a_nodes_length_le (nodes : List Node) (spans : List MSpan) (r : ℚ) :
    (merge_nearby_auto_gen_nodes nodes spans r).2.length ≤ nodes.length := by
  unfold merge_nearby_auto_gen_nodes
  by_cases hemp :
      (nodes.filter (fun n => decide (n.name = "Auto generated missing node"))).isEmpty
  · simp [hemp]
  · simp only [hemp, Bool.false_eq_true, if_neg, not_false_iff]
    exact List.length_filter_le _ _

theorem pass_b_nodes_length_le (nodes : List Node) (spans : List MSpan) (r : ℚ) :
    (merge_nearby_auto_gen_and_proper_nodes nodes spans r).2.length ≤ nodes.length := by
  unfold merge_nearby_auto_gen_and_proper_nodes
  exact List.length_filter_le _ _

/-- C8 counterexample: on the four-node chain input, after pass A followed
by pass B, the second span's start reference carries id 11, which belonged
to an input node and no longer belongs to any surviving node (chained
merges leave a dangling reference to a dropped node). -/
theorem merger_dangling_reference_cex :
    (chainResult.1.getD 1 dMSpan).startRef.id = 11 ∧
      11 ∈ chainNodes.map Node.id ∧ 11 ∉ chainResult.2.map Node.id := by
  refine ⟨by decide, by decide, by decide⟩

/-- C8 amended: the node count after pass A followed by pass B is at most
the node count before; however a span's endpoint reference may still carry
the id of a dropped node when merges chain (the survivor of one pair being
the loser of another), so only the count half of the claim holds. -/
theorem merger_passes_node_count (nodes : List Node) (spans : List MSpan) (rA rB : ℚ) :
    ((merge_nearby_auto_gen_and_proper_nodes
        (merge_nearby_auto_gen_nodes nodes spans rA).2
        (merge_nearby_auto_gen_nodes nodes spans rA).1 rB).2).length ≤ nodes.length :=
  le_trans (pass_b_nodes_length_le _ _ _) (pass_a_nodes_length_le nodes spans rA)

theorem closeLists_mem_bound (coords : List Pt) (r : ℚ) :
    ∀ l ∈ closeLists coords r, ∀ j ∈ l, j < coords.length := by
  intro l hl j hj
  unfold closeLists at hl
  rcases List.mem_filter.mp hl with ⟨hl2, _⟩
  rcases List.mem_map.mp hl2 with ⟨i, _, rfl⟩
  exact List.mem_range.mp (List.mem_filter.mp hj).1

theorem getD_indexOf_eq (names : List String) (a : String) (h : a ∈ names) :
    names.getD (names.indexOf a) "" = a := by
  have hlt : names.indexOf a < names.length := List.indexOf_lt_length.mpr h
  rw [List.getD_eq_getElem _ _ hlt]
  exact List.getElem_indexOf hlt

theorem reorder_head_auto (nodes : List Node) (cluster : List ℕ) (fc : List ℕ)
    (hre : reorderCluster nodes cluster = some fc)
    (hb : ∀ j ∈ cluster, j < nodes.length) :
    (nodes.getD (fc.getD 0 0) dNode).name = "Auto generated missing node" ∧
      fc.getD 0 0 < nodes.length := by
  unfold reorderCluster at hre
  by_cases hmem : "Auto generated missing node" ∈
      cluster.map (fun i => (nodes.getD i dNode).name)
  · rw [if_pos hmem, Option.some_inj] at hre
    have hklt :
        (cluster.map (fun i => (nodes.getD i dNode).name)).indexOf
            "Auto generated missing node" < cluster.length := by
      have := List.indexOf_lt_length.mpr hmem
      simpa using this
    have hhead : fc.getD 0 0 =
        cluster.getD ((cluster.map (fun i => (nodes.getD i dNode).name)).indexOf
          "Auto generated missing node") 0 := by
      by_cases hk0 : (cluster.map (fun i => (nodes.getD i dNode).name)).indexOf
          "Auto generated missing node" ≠ 0
      · rw [← hre, if_pos hk0]
        simp
      · push_neg at hk0
        rw [← hre, if_neg (by simpa using hk0), hk0]
    have hname : (nodes.getD (cluster.getD
        ((cluster.map (fun i => (nodes.getD i dNode).name)).indexOf
          "Auto generated missing node") 0) dNode).name =
        "Auto generated missing node" := by
      have h1 := getD_indexOf_eq (cluster.map (fun i => (nodes.getD i dNode).name))
        "Auto generated missing node" hmem
      rw [List.getD_eq_getElem _ _ (by simpa using hklt), List.getElem_map] at h1
      rw [List.getD_eq_getElem _ _ hklt]
      exact h1
    have hmem2 : cluster.getD
        ((cluster.map (fun i => (nodes.getD i dNode).name)).indexOf
          "Auto generated missing node") 0 ∈ cluster := by
      rw [List.getD_eq_getElem _ _ hklt]
      exact List.getElem_mem _
    rw [hhead]
    exact ⟨hname, hb _ hmem2⟩
  · rw [if_neg hmem] at hre
    exact absurd hre (by simp)

/-- C9 counterexample: with two auto-generated nodes within 1e-3 and a
span referencing the first, pass B drops the first auto node and makes the
second auto node the survivor: the surviving node of the merge is itself a
synthesized node, not a named one. -/
theorem pass_b_survivor_not_named_cex :
    ((merge_nearby_auto_gen_and_proper_nodes twoAutoNodes twoAutoSpans
        (1 / 1000)).1.getD 0 dMSpan).startRef.id = 2 ∧
      (merge_nearby_auto_gen_and_proper_nodes twoAutoNodes twoAutoSpans
          (1 / 1000)).2.map Node.name = ["Auto generated missing node"] ∧
      (merge_nearby_auto_gen_and_proper_nodes twoAutoNodes twoAutoSpans
          (1 / 1000)).2.map Node.id = [2] := by
  refine ⟨by decide, by decide, by decide⟩

/-- C9 amended: in pass B the dropped node of every merge is always a
synthesized node, so assuming distinct node ids a named node is never
dropped (and two named nodes are never merged into each other); the
survivor, however, is merely the second member of the reordered cluster
and need not be a named node. -/
theorem pass_b_never_drops_named (nodes : List Node) (spans : List MSpan) (r : ℚ)
    (hids : (nodes.map Node.id).Nodup) :
    ∀ n ∈ nodes, n.name ≠ "Auto generated missing node" →
      n ∈ (merge_nearby_auto_gen_and_proper_nodes nodes spans r).2 := by
  intro n hn hname
  unfold merge_nearby_auto_gen_and_proper_nodes
  rw [List.mem_filter]
  refine ⟨hn, ?_⟩
  rw [decide_eq_true_iff]
  intro hmem
  rcases mergeSpans_merged _ spans [] n.id hmem with h0 | ⟨q, hq, hx⟩
  · simp at h0
  · rcases List.mem_map.mp hq with ⟨fc, hfc, rfl⟩
    rcases List.mem_filterMap.mp hfc with ⟨cluster, hcl, hre⟩
    have hb2 : ∀ j ∈ cluster, j < nodes.length := by
      have hb := closeLists_mem_bound (nodes.map Node.pos) r cluster hcl
      simpa using hb
    have hauto := reorder_head_auto nodes cluster fc hre hb2
    have hmem3 : nodes.getD (fc.getD 0 0) dNode ∈ nodes := by
      rw [List.getD_eq_getElem _ _ hauto.2]
      exact List.getElem_mem _
    have heq : nodes.getD (fc.getD 0 0) dNode = n := by
      apply List.inj_on_of_nodup_map hids hmem3 hn
      simpa using hx.symm
    rw [heq] at hauto
    exact hname hauto.1

/-- Witness for the amended C9 theorem: a named node survives pass B on a
concrete input. -/
theorem pass_b_never_drops_named_witness :
    (([⟨5, "Facility", (0, 0), dNet⟩] : List Node).map Node.id).Nodup ∧
      (⟨5, "Facility", (0, 0), dNet⟩ : Node) ∈
        (merge_nearby_auto_gen_and_proper_nodes [⟨5, "Facility", (0, 0), dNet⟩] [] 1).2 :=
  ⟨by decide,
    pass_b_never_drops_named [⟨5, "Facility", (0, 0), dNet⟩] [] 1 (by decide)
      ⟨5, "Facility", (0, 0), dNet⟩ (by decide) (by decide)⟩

theorem dist2_self (p : Pt) : dist2 p p = 0 := by simp [dist2]

theorem maybeAddNode_mono (nodes : List Node) (net : Network) (tol : ℚ) (pt : Pt)
    (acc : List Node) (c : ℕ) :
    ∀ m ∈ acc, m ∈ (maybeAddNode nodes net tol pt acc c).1 := by
  intro m hm
  unfold maybeAddNode
  split
  · exact hm
  · split
    · exact hm
    · exact List.mem_append_left _ hm

theorem maybeAddNode_elem (nodes : List Node) (net : Network) (tol : ℚ) (pt : Pt)
    (acc : List Node) (c : ℕ) :
    ∀ m ∈ (maybeAddNode nodes net tol pt acc c).1, m ∈ acc ∨ m = append_node pt net c := by
  intro m hm
  unfold maybeAddNode at hm
  split at hm
  · exact Or.inl hm
  · split at hm
    · exact Or.inl hm
    · rcases List.mem_append.mp hm with h | h
      · exact Or.inl h
      · exact Or.inr (by simpa using h)

theorem maybeAddNode_counter (nodes : List Node) (net : Network) (tol : ℚ) (pt : Pt)
    (acc : List Node) (c : ℕ) :
    c ≤ (maybeAddNode nodes net tol pt acc c).2 := by
  unfold maybeAddNode
  split
  · exact le_rfl
  · split <;> simp

theorem maybeAddNode_cover (nodes : List Node) (net : Network) (tol : ℚ) (pt : Pt)
    (acc : List Node) (c : ℕ) :
    (∃ n ∈ nodes, dist2 n.pos pt ≤ tol ^ 2) ∨
      ∃ m ∈ (maybeAddNode nodes net tol pt acc c).1, m.pos = pt := by
  unfold maybeAddNode
  by_cases h1 : nodes.any (fun n => decide (dist2 n.pos pt ≤ tol ^ 2))
  · left
    rcases List.any_eq_true.mp h1 with ⟨n, hn, hd⟩
    exact ⟨n, hn, by simpa using hd⟩
  · right
    rw [if_neg h1]
    by_cases h2 : acc.any (fun m => decide (m.pos = pt))
    · rcases List.any_eq_true.mp h2 with ⟨m, hm, hd⟩
      rw [if_pos h2]
      exact ⟨m, hm, by simpa using hd⟩
    · rw [if_neg h2]
      exact ⟨append_node pt net c, List.mem_append_right _ (by simp), rfl⟩

theorem maybeAddNode_ids (nodes : List Node) (net : Network) (tol : ℚ) (pt : Pt)
    (acc : List Node) (c : ℕ) (hlt : ∀ m ∈ acc, m.id < c) :
    ∀ m ∈ (maybeAddNode nodes net tol pt acc c).1,
      m.id < (maybeAddNode nodes net tol pt acc c).2 := by
  intro m hm
  unfold maybeAddNode at hm ⊢
  by_cases h1 : nodes.any (fun n => decide (dist2 n.pos pt ≤ tol ^ 2))
  · rw [if_pos h1] at hm ⊢
    exact hlt m hm
  · rw [if_neg h1] at hm ⊢
    by_cases h2 : acc.any (fun m => decide (m.pos = pt))
    · rw [if_pos h2] at hm ⊢
      exact lt_trans (hlt m hm) (by omega)
    · rw [if_neg h2] at hm ⊢
      rcases List.mem_append.mp hm with h | h
      · exact lt_trans (hlt m h) (by omega)
      · have he : m = append_node pt net c := by simpa using h
        rw [he]
        simp [append_node]

theorem maybeAddNode_nodup (nodes : List Node) (net : Network) (tol : ℚ) (pt : Pt)
    (acc : List Node) (c : ℕ) (hlt : ∀ m ∈ acc, m.id < c)
    (hnd : (acc.map Node.id).Nodup) :
    ((maybeAddNode nodes net tol pt acc c).1.map Node.id).Nodup := by
  unfold maybeAddNode
  split
  · exact hnd
  · split
    · exact hnd
    · rw [List.map_append]
      rw [List.nodup_append]
      refine ⟨hnd, by simp, ?_⟩
      intro a ha
      rcases List.mem_map.mp ha with ⟨m, hm, rfl⟩
      have := hlt m hm
      simp only [append_node, List.map_cons, List.map_nil, List.mem_cons,
        List.not_mem_nil, or_false]
      omega

theorem maybeAddNode_pairwise (nodes : List Node) (net : Network) (tol : ℚ) (pt : Pt)
    (acc : List Node) (c : ℕ)
    (hpw : List.Pairwise (fun a b => a.pos ≠ b.pos) acc) :
    List.Pairwise (fun a b => a.pos ≠ b.pos) (maybeAddNode nodes net tol pt acc c).1 := by
  unfold maybeAddNode
  split
  · exact hpw
  · by_cases h2 : acc.any (fun m => decide (m.pos = pt))
    · rw [if_pos h2]
      exact hpw
    · rw [if_neg h2]
      rw [List.pairwise_append]
      refine ⟨hpw, by simp, ?_⟩
      intro a ha b hb
      have hb2 : b = append_node pt net c := by simpa using hb
      have hne : a.pos ≠ pt := by
        intro hcon
        exact h2 (List.any_eq_true.mpr ⟨a, ha, by simpa using hcon⟩)
      rw [hb2]
      simpa [append_node] using hne

theorem addMissingAux_mono (nodes : List Node) (net : Network) (tol : ℚ) :
    ∀ (spans : List SegOut) (acc : List Node) (c : ℕ),
      ∀ m ∈ acc, m ∈ (addMissingAux nodes net tol spans acc c).1 := by
  intro spans
  induction spans with
  | nil => intro acc c m hm; simpa [addMissingAux] using hm
  | cons sp rest ih =>
    intro acc c m hm
    simp only [addMissingAux]
    exact ih _ _ m (maybeAddNode_mono _ _ _ _ _ _ m (maybeAddNode_mono _ _ _ _ _ _ m hm))

theorem addMissingAux_counter (nodes : List Node) (net : Network) (tol : ℚ) :
    ∀ (spans : List SegOut) (acc : List Node) (c : ℕ),
      c ≤ (addMissingAux nodes net tol spans acc c).2 := by
  intro spans
  induction spans with
  | nil => intro acc c; simp [addMissingAux]
  | cons sp rest ih =>
    intro acc c
    simp only [addMissingAux]
    exact le_trans (le_trans (maybeAddNode_counter _ _ _ _ _ _)
      (maybeAddNode_counter _ _ _ _ _ _)) (ih _ _)

theorem addMissingAux_elem (nodes : List Node) (net : Network) (tol : ℚ) :
    ∀ (spans : List SegOut) (acc : List Node) (c : ℕ),
      ∀ m ∈ (addMissingAux nodes net tol spans acc c).1,
        m ∈ acc ∨ (m.name = "Auto generated missing node" ∧ c ≤ m.id) := by
  intro spans
  induction spans with
  | nil => intro acc c m hm; exact Or.inl (by simpa [addMissingAux] using hm)
  | cons sp rest ih =>
    intro acc c m hm
    simp only [addMissingAux] at hm
    rcases ih _ _ m hm with h | ⟨hname, hc⟩
    · rcases maybeAddNode_elem _ _ _ _ _ _ m h with h2 | h2
      · rcases maybeAddNode_elem _ _ _ _ _ _ m h2 with h3 | h3
        · exact Or.inl h3
        · exact Or.inr ⟨by rw [h3]; rfl, by rw [h3]; exact le_rfl⟩
      · refine Or.inr ⟨by rw [h2]; rfl, ?_⟩
        rw [h2]
        exact maybeAddNode_counter _ _ _ _ _ _
    · refine Or.inr ⟨hname, le_trans (le_trans (maybeAddNode_counter _ _ _ _ _ _)
        (maybeAddNode_counter _ _ _ _ _ _)) hc⟩

theorem addMissingAux_ids (nodes : List Node) (net : Network) (tol : ℚ) :
    ∀ (spans : List SegOut) (acc : List Node) (c : ℕ),
      (∀ m ∈ acc, m.id < c) →
        ∀ m ∈ (addMissingAux nodes net tol spans acc c).1,
          m.id < (addMissingAux nodes net tol spans acc c).2 := by
  intro spans
  induction spans with
  | nil =>
    intro acc c hlt m hm
    simp only [addMissingAux] at hm ⊢
    exact hlt m hm
  | cons sp rest ih =>
    intro acc c hlt m hm
    simp only [addMissingAux] at hm ⊢
    refine ih _ _ ?_ m hm
    intro m2 hm2
    exact maybeAddNode_ids _ _ _ _ _ _ (maybeAddNode_ids _ _ _ _ _ _ hlt) m2 hm2

theorem addMissingAux_nodup (nodes : List Node) (net : Network) (tol : ℚ) :
    ∀ (spans : List SegOut) (acc : List Node) (c : ℕ),
      (∀ m ∈ acc, m.id < c) → (acc.map Node.id).Nodup →
        ((addMissingAux nodes net tol spans acc c).1.map Node.id).Nodup := by
  intro spans
  induction spans with
  | nil =>
    intro acc c hlt hnd
    simpa [addMissingAux] using hnd
  | cons sp rest ih =>
    intro acc c hlt hnd
    simp only [addMissingAux]
    exact ih _ _
      (maybeAddNode_ids _ _ _ _ _ _ (maybeAddNode_ids _ _ _ _ _ _ hlt))
      (maybeAddNode_nodup _ _ _ _ _ _ (maybeAddNode_ids _ _ _ _ _ _ hlt)
        (maybeAddNode_nodup _ _ _ _ _ _ hlt hnd))

theorem addMissingAux_pairwise (nodes : List Node) (net : Network) (tol : ℚ) :
    ∀ (spans : List SegOut) (acc : List Node) (c : ℕ),
      List.Pairwise (fun a b => a.pos ≠ b.pos) acc →
        List.Pairwise (fun a b => a.pos ≠ b.pos)
          (addMissingAux nodes net tol spans acc c).1 := by
  intro spans
  induction spans with
  | nil =>
    intro acc c hpw
    simpa [addMissingAux] using hpw
  | cons sp rest ih =>
    intro acc c hpw
    simp only [addMissingAux]
    exact ih _ _ (maybeAddNode_pairwise _ _ _ _ _ _ (maybeAddNode_pairwise _ _ _ _ _ _ hpw))

theorem addMissingAux_cover (nodes : List Node) (net : Network) (tol : ℚ) :
    ∀ (spans : List SegOut) (acc : List Node) (c : ℕ), ∀ sp ∈ spans,
      ((∃ n ∈ nodes, dist2 n.pos (sp.geom.headD dPt) ≤ tol ^ 2) ∨
        (∃ m ∈ (addMissingAux nodes net tol spans acc c).1,
          m.pos = sp.geom.headD dPt)) ∧
      ((∃ n ∈ nodes, dist2 n.pos (sp.geom.getLastD dPt) ≤ tol ^ 2) ∨
        (∃ m ∈ (addMissingAux nodes net tol spans acc c).1,
          m.pos = sp.geom.getLastD dPt)) := by
  intro spans
  induction spans with
  | nil => intro acc c sp hsp; exact absurd hsp (List.not_mem_nil sp)
  | cons sp0 rest ih =>
    intro acc c sp hsp
    rcases List.mem_cons.mp hsp with rfl | hsp2
    · constructor
      · rcases maybeAddNode_cover nodes net tol (sp.geom.headD dPt) acc c with h | ⟨m, hm, hp⟩
        · exact Or.inl h
        · refine Or.inr ⟨m, ?_, hp⟩
          simp only [addMissingAux]
          exact addMissingAux_mono _ _ _ _ _ _ m (maybeAddNode_mono _ _ _ _ _ _ m hm)
      · rcases maybeAddNode_cover nodes net tol (sp.geom.getLastD dPt)
            (maybeAddNode nodes net tol (sp.geom.headD dPt) acc c).1
            (maybeAddNode nodes net tol (sp.geom.headD dPt) acc c).2 with h | ⟨m, hm, hp⟩
        · exact Or.inl h
        · refine Or.inr ⟨m, ?_, hp⟩
          simp only [addMissingAux]
          exact addMissingAux_mono _ _ _ _ _ _ m hm
    · have := ih (maybeAddNode nodes net tol (sp0.geom.getLastD dPt)
          (maybeAddNode nodes net tol (sp0.geom.headD dPt) acc c).1
          (maybeAddNode nodes net tol (sp0.geom.headD dPt) acc c).2).1
        (maybeAddNode nodes net tol (sp0.geom.getLastD dPt)
          (maybeAddNode nodes net tol (sp0.geom.headD dPt) acc c).1
          (maybeAddNode nodes net tol (sp0.geom.headD dPt) acc c).2).2 sp hsp2
      simpa only [addMissingAux] using this

/-- C7: after add_missing_nodes, every span's first and last vertex has a
node of the returned combined set within the tolerance buffer; every
synthesized node carries the name of an auto-generated node and a fresh id
(distinct from all prior ids under the counter-freshness hypothesis), the
synthesized ids are pairwise distinct, and no two nodes synthesized in the
same pass share an exactly equal position.  The nonempty-geometry
hypothesis mirrors the source, which indexes coords[0] and coords[-1]. -/
theorem add_missing_nodes_spec (spans : List SegOut) (nodes : List Node)
    (net : Network) (tol : ℚ) (c0 : ℕ)
    (hgeom : ∀ sp ∈ spans, sp.geom ≠ [])
    (hid : ∀ n ∈ nodes, n.id < c0) :
    (∀ sp ∈ spans,
      (∃ n ∈ (add_missing_nodes spans nodes net tol c0).1,
        dist2 n.pos (sp.geom.headD dPt) ≤ tol ^ 2) ∧
      (∃ n ∈ (add_missing_nodes spans nodes net tol c0).1,
        dist2 n.pos (sp.geom.getLastD dPt) ≤ tol ^ 2)) ∧
    (∀ m ∈ (add_missing_nodes spans nodes net tol c0).2.1,
      m.name = "Auto generated missing node" ∧ c0 ≤ m.id ∧ ∀ n ∈ nodes, m.id ≠ n.id) ∧
    ((add_missing_nodes spans nodes net tol c0).2.1.map Node.id).Nodup ∧
    List.Pairwise (fun a b => a.pos ≠ b.pos)
      (add_missing_nodes spans nodes net tol c0).2.1 := by
  refine ⟨?_, ?_, ?_, ?_⟩
  · intro sp hsp
    have hc := addMissingAux_cover nodes net tol spans [] c0 sp hsp
    unfold add_missing_nodes
    constructor
    · rcases hc.1 with ⟨n, hn, hd⟩ | ⟨m, hm, hp⟩
      · exact ⟨n, List.mem_append_left _ hn, hd⟩
      · refine ⟨m, List.mem_append_right _ hm, ?_⟩
        rw [hp, dist2_self]
        exact sq_nonneg tol
    · rcases hc.2 with ⟨n, hn, hd⟩ | ⟨m, hm, hp⟩
      · exact ⟨n, List.mem_append_left _ hn, hd⟩
      · refine ⟨m, List.mem_append_right _ hm, ?_⟩
        rw [hp, dist2_self]
        exact sq_nonneg tol
  · intro m hm
    have := addMissingAux_elem nodes net tol spans [] c0 m (by simpa [add_missing_nodes] using hm)
    rcases this with h | ⟨hname, hc⟩
    · exact absurd h (List.not_mem_nil m)
    · refine ⟨hname, hc, ?_⟩
      intro n hn
      have := hid n hn
      omega
  · have := addMissingAux_nodup nodes net tol spans [] c0 (by simp) (by simp)
    simpa [add_missing_nodes] using this
  · have := addMissingAux_pairwise nodes net tol spans [] c0 (by simp)
    simpa [add_missing_nodes] using this

/-- Witness for the C7 theorem: one segment from (5,5) to (6,6) with no
existing node yields two synthesized nodes at exactly those positions. -/
theorem add_missing_nodes_spec_witness :
    (∀ sp ∈ [(⟨1, [(5, 5), (6, 6)], "s", "span", "", dNet⟩ : SegOut)], sp.geom ≠ []) ∧
    (∀ n ∈ ([] : List Node), n.id < 0) ∧
    ((∀ sp ∈ [(⟨1, [(5, 5), (6, 6)], "s", "span", "", dNet⟩ : SegOut)],
      (∃ n ∈ (add_missing_nodes [⟨1, [(5, 5), (6, 6)], "s", "span", "", dNet⟩] [] dNet
          (1 / 1000000) 0).1,
        dist2 n.pos (sp.geom.headD dPt) ≤ (1 / 1000000) ^ 2) ∧
      (∃ n ∈ (add_missing_nodes [⟨1, [(5, 5), (6, 6)], "s", "span", "", dNet⟩] [] dNet
          (1 / 1000000) 0).1,
        dist2 n.pos (sp.geom.getLastD dPt) ≤ (1 / 1000000) ^ 2)) ∧
    (∀ m ∈ (add_missing_nodes [⟨1, [(5, 5), (6, 6)], "s", "span", "", dNet⟩] [] dNet
        (1 / 1000000) 0).2.1,
      m.name = "Auto generated missing node" ∧ 0 ≤ m.id ∧
        ∀ n ∈ ([] : List Node), m.id ≠ n.id) ∧
    ((add_missing_nodes [⟨1, [(5, 5), (6, 6)], "s", "span", "", dNet⟩] [] dNet
        (1 / 1000000) 0).2.1.map Node.id).Nodup ∧
    List.Pairwise (fun a b => a.pos ≠ b.pos)
      (add_missing_nodes [⟨1, [(5, 5), (6, 6)], "s", "span", "", dNet⟩] [] dNet
        (1 / 1000000) 0).2.1) :=
  ⟨by simp, by simp,
    add_missing_nodes_spec [⟨1, [(5, 5), (6, 6)], "s", "span", "", dNet⟩] [] dNet
      (1 / 1000000) 0 (by simp) (by simp)⟩

theorem dist2_nonneg (p q : Pt) : 0 ≤ dist2 p q := by
  unfold dist2
  positivity

theorem lerp_zero (a b : Pt) : lerp a b 0 = a := by
  simp [lerp]

theorem clamp01_nonneg (t : ℚ) : 0 ≤ clamp01 t := le_max_left 0 (min 1 t)

theorem clamp01_le_one (t : ℚ) : clamp01 t ≤ 1 :=
  max_le zero_le_one (min_le_left 1 t)

theorem closestOnSeg_min (a b p : Pt) (t : ℚ) (h0 : 0 ≤ t) (h1 : t ≤ 1) :
    dist2 p (closestOnSeg a b p) ≤ dist2 p (lerp a b t) := by
  obtain ⟨a1, a2⟩ := a
  obtain ⟨b1, b2⟩ := b
  obtain ⟨p1, p2⟩ := p
  unfold closestOnSeg
  by_cases hd : dist2 (a1, a2) (b1, b2) = 0
  · rw [if_pos hd]
    simp only [dist2] at hd
    have e1 : b1 = a1 := by nlinarith [sq_nonneg (a1 - b1), sq_nonneg (a2 - b2)]
    have e2 : b2 = a2 := by nlinarith [sq_nonneg (a1 - b1), sq_nonneg (a2 - b2)]
    rw [e1, e2]
    simp [lerp]
  · rw [if_neg hd]
    have hdpos : 0 < dist2 (a1, a2) (b1, b2) := by
      rcases lt_or_eq_of_le (dist2_nonneg (a1, a2) (b1, b2)) with h | h
      · exact h
      · exact absurd h.symm hd
    simp only [dist2] at hdpos
    simp only [clamp01, projParam, dist2, lerp]
    rcases le_total
        (((p1 - a1) * (b1 - a1) + (p2 - a2) * (b2 - a2)) / ((a1 - b1) ^ 2 + (a2 - b2) ^ 2))
        0 with hu | hu
    · rw [min_eq_right (le_trans hu zero_le_one), max_eq_left hu]
      have hwneg : (p1 - a1) * (b1 - a1) + (p2 - a2) * (b2 - a2) ≤ 0 := by
        by_contra hcon
        push_neg at hcon
        have := div_pos hcon hdpos
        linarith
      nlinarith [sq_nonneg (t * (b1 - a1)), sq_nonneg (t * (b2 - a2)),
        mul_nonneg h0 (neg_nonneg.mpr hwneg)]
    · rcases le_total 1
          (((p1 - a1) * (b1 - a1) + (p2 - a2) * (b2 - a2)) /
            ((a1 - b1) ^ 2 + (a2 - b2) ^ 2)) with hu1 | hu1
      · rw [min_eq_left hu1, max_eq_right zero_le_one]
        have hwge : (a1 - b1) ^ 2 + (a2 - b2) ^ 2 ≤
            (p1 - a1) * (b1 - a1) + (p2 - a2) * (b2 - a2) :=
          (one_le_div hdpos).mp hu1
        have key : 0 ≤ 2 * ((p1 - a1) * (b1 - a1) + (p2 - a2) * (b2 - a2)) -
            ((a1 - b1) ^ 2 + (a2 - b2) ^ 2) * (1 + t) := by
          nlinarith [mul_nonneg (sub_nonneg.mpr h1) (le_of_lt hdpos)]
        nlinarith [mul_nonneg (sub_nonneg.mpr h1) key]
      · rw [min_eq_right hu1, max_eq_right hu]
        have expand : ∀ s : ℚ,
            (p1 - (a1 + s * (b1 - a1))) ^ 2 + (p2 - (a2 + s * (b2 - a2))) ^ 2 =
              ((p1 - a1) ^ 2 + (p2 - a2) ^ 2) -
                2 * s * ((p1 - a1) * (b1 - a1) + (p2 - a2) * (b2 - a2)) +
                s ^ 2 * ((a1 - b1) ^ 2 + (a2 - b2) ^ 2) := by
          intro s
          ring
        simp only [expand]
        set K := (p1 - a1) ^ 2 + (p2 - a2) ^ 2 with hK
        set w := (p1 - a1) * (b1 - a1) + (p2 - a2) * (b2 - a2) with hw
        set d2 := (a1 - b1) ^ 2 + (a2 - b2) ^ 2 with hd2
        have e1 : K - 2 * (w / d2) * w + (w / d2) ^ 2 * d2 = K - w ^ 2 / d2 := by
          field_simp
          ring
        have e2 : w ^ 2 / d2 - 2 * t * w + t ^ 2 * d2 = (t * d2 - w) ^ 2 / d2 := by
          field_simp
          ring
        have e3 : 0 ≤ (t * d2 - w) ^ 2 / d2 := div_nonneg (sq_nonneg _) (le_of_lt hdpos)
        linarith

theorem pickMin_spec (p : Pt) :
    ∀ (l : List Pt) (b : Pt),
      ∃ c, pickMin p l (some b) = some c ∧ (c = b ∨ c ∈ l) ∧ dist2 p c ≤ dist2 p b ∧
        ∀ x ∈ l, dist2 p c ≤ dist2 p x := by
  intro l
  induction l with
  | nil =>
    intro b
    exact ⟨b, rfl, Or.inl rfl, le_rfl, by simp⟩
  | cons a rest ih =>
    intro b
    by_cases h : dist2 p a < dist2 p b
    · obtain ⟨c, heq, hmem, hle, hall⟩ := ih a
      refine ⟨c, by simpa [pickMin, h] using heq, ?_, le_trans hle (le_of_lt h), ?_⟩
      · rcases hmem with h2 | h2
        · exact Or.inr (h2 ▸ List.mem_cons_self a rest)
        · exact Or.inr (List.mem_cons_of_mem a h2)
      · intro x hx
        rcases List.mem_cons.mp hx with rfl | hx2
        · exact hle
        · exact hall x hx2
    · obtain ⟨c, heq, hmem, hle, hall⟩ := ih b
      refine ⟨c, by simpa [pickMin, h] using heq, ?_, hle, ?_⟩
      · rcases hmem with h2 | h2
        · exact Or.inl h2
        · exact Or.inr (List.mem_cons_of_mem a h2)
      · intro x hx
        rcases List.mem_cons.mp hx with rfl | hx2
        · exact le_trans hle (le_of_not_lt h)
        · exact hall x hx2

theorem nearestOnLine_spec (line : List Pt) (p : Pt) (h : segsOf line ≠ []) :
    ∃ c, nearestOnLine line p = some c ∧ c ∈ nearestCandidates line p ∧
      ∀ x ∈ nearestCandidates line p, dist2 p c ≤ dist2 p x := by
  unfold nearestOnLine
  cases hcand : nearestCandidates line p with
  | nil =>
    exact absurd (by simpa [nearestCandidates] using hcand) h
  | cons a rest =>
    obtain ⟨c, heq, hmem, hle, hall⟩ := pickMin_spec p rest a
    refine ⟨c, by simpa [pickMin] using heq, ?_, ?_⟩
    · rcases hmem with h2 | h2
      · exact h2 ▸ List.mem_cons_self a rest
      · exact List.mem_cons_of_mem a h2
    · intro x hx
      rcases List.mem_cons.mp hx with rfl | hx2
      · exact hle
      · exact hall x hx2

theorem nearestOnLine_min (line : List Pt) (p c : Pt)
    (hc : nearestOnLine line p = some c) :
    ∀ ab ∈ segsOf line, ∀ t, 0 ≤ t → t ≤ 1 →
      dist2 p c ≤ dist2 p (lerp ab.1 ab.2 t) := by
  intro ab hab t h0 h1
  have hne : segsOf line ≠ [] := by
    intro hcon
    rw [hcon] at hab
    exact List.not_mem_nil ab hab
  obtain ⟨c2, heq, hmem, hall⟩ := nearestOnLine_spec line p hne
  have hcc : c2 = c := by
    rw [hc] at heq
    exact (Option.some_inj.mp heq).symm
  rw [← hcc]
  refine le_trans (hall (closestOnSeg ab.1 ab.2 p) ?_) (closestOnSeg_min ab.1 ab.2 p t h0 h1)
  exact List.mem_map.mpr ⟨ab, hab, rfl⟩

theorem nearestOnLine_on_line (line : List Pt) (p c : Pt)
    (hc : nearestOnLine line p = some c) :
    ∃ ab ∈ segsOf line, ∃ t, 0 ≤ t ∧ t ≤ 1 ∧ c = lerp ab.1 ab.2 t := by
  have hne : segsOf line ≠ [] := by
    intro hcon
    unfold nearestOnLine nearestCandidates at hc
    rw [hcon] at hc
    simp [pickMin] at hc
  obtain ⟨c2, heq, hmem, hall⟩ := nearestOnLine_spec line p hne
  have hcc : c2 = c := by
    rw [hc] at heq
    exact (Option.some_inj.mp heq).symm
  rcases List.mem_map.mp hmem with ⟨ab, hab, hc3⟩
  rw [← hcc, ← hc3]
  unfold closestOnSeg
  by_cases hd : dist2 ab.1 ab.2 = 0
  · rw [if_pos hd]
    exact ⟨ab, hab, 0, le_rfl, zero_le_one, (lerp_zero ab.1 ab.2).symm⟩
  · rw [if_neg hd]
    exact ⟨ab, hab, clamp01 (projParam ab.1 ab.2 p), clamp01_nonneg _, clamp01_le_one _, rfl⟩

theorem bestLine_some_spec (p : Pt) :
    ∀ (lines : List (List Pt)) (bl0 : List Pt) (bc0 : Pt),
      (bestLine p lines (some (bl0, bc0)) = some (bl0, bc0) ∧
        ∀ l ∈ lines, ∀ c, nearestOnLine l p = some c → dist2 p bc0 ≤ dist2 p c) ∨
      (∃ pre bl suf bc, lines = pre ++ bl :: suf ∧ nearestOnLine bl p = some bc ∧
        bestLine p lines (some (bl0, bc0)) = some (bl, bc) ∧
        dist2 p bc < dist2 p bc0 ∧
        (∀ l ∈ pre, ∀ c, nearestOnLine l p = some c → dist2 p bc < dist2 p c) ∧
        (∀ l ∈ suf, ∀ c, nearestOnLine l p = some c → dist2 p bc ≤ dist2 p c)) := by
  intro lines
  induction lines with
  | nil =>
    intro bl0 bc0
    left
    exact ⟨rfl, by simp⟩
  | cons l rest ih =>
    intro bl0 bc0
    cases hnol : nearestOnLine l p with
    | none =>
      rcases ih bl0 bc0 with ⟨heq, hall⟩ | ⟨pre, bl, suf, bc, hsplit, hnbc, heq, hlt, hpre, hsuf⟩
      · left
        refine ⟨by simp [bestLine, hnol, heq], ?_⟩
        intro l2 hl2 c hc
        rcases List.mem_cons.mp hl2 with rfl | hl3
        · rw [hnol] at hc
          exact absurd hc (by simp)
        · exact hall l2 hl3 c hc
      · right
        refine ⟨l :: pre, bl, suf, bc, by rw [hsplit]; rfl, hnbc,
          by simp [bestLine, hnol, heq], hlt, ?_, hsuf⟩
        intro l2 hl2 c hc
        rcases List.mem_cons.mp hl2 with rfl | hl3
        · rw [hnol] at hc
          exact absurd hc (by simp)
        · exact hpre l2 hl3 c hc
    | some c =>
      by_cases hlt : dist2 p c < dist2 p bc0
      · rcases ih l c with ⟨heq, hall⟩ | ⟨pre, bl, suf, bc, hsplit, hnbc, heq, hlt2, hpre, hsuf⟩
        · right
          exact ⟨[], l, rest, c, by simp, hnol,
            by simp [bestLine, hnol, hlt, heq], hlt, by simp, hall⟩
        · right
          refine ⟨l :: pre, bl, suf, bc, by rw [hsplit]; rfl, hnbc,
            by simp [bestLine, hnol, hlt, heq], lt_trans hlt2 hlt, ?_, hsuf⟩
          intro l2 hl2 c2 hc2
          rcases List.mem_cons.mp hl2 with rfl | hl3
          · have : c2 = c := by
              rw [hnol] at hc2
              exact (Option.some_inj.mp hc2).symm
            rw [this]
            exact hlt2
          · exact hpre l2 hl3 c2 hc2
      · rcases ih bl0 bc0 with ⟨heq, hall⟩ | ⟨pre, bl, suf, bc, hsplit, hnbc, heq, hlt2, hpre, hsuf⟩
        · left
          refine ⟨by simp [bestLine, hnol, hlt, heq], ?_⟩
          intro l2 hl2 c2 hc2
          rcases List.mem_cons.mp hl2 with rfl | hl3
          · have : c2 = c := by
              rw [hnol] at hc2
              exact (Option.some_inj.mp hc2).symm
            rw [this]
            exact le_of_not_lt hlt
          · exact hall l2 hl3 c2 hc2
        · right
          refine ⟨l :: pre, bl, suf, bc, by rw [hsplit]; rfl, hnbc,
            by simp [bestLine, hnol, hlt, heq], hlt2, ?_, hsuf⟩
          intro l2 hl2 c2 hc2
          rcases List.mem_cons.mp hl2 with rfl | hl3
          · have : c2 = c := by
              rw [hnol] at hc2
              exact (Option.some_inj.mp hc2).symm
            rw [this]
            exact lt_of_lt_of_le hlt2 (le_of_not_lt hlt)
          · exact hpre l2 hl3 c2 hc2

theorem bestLine_none_spec (p : Pt) :
    ∀ lines : List (List Pt),
      (∀ l ∈ lines, nearestOnLine l p = none) ∨
      (∃ pre bl suf bc, lines = pre ++ bl :: suf ∧ nearestOnLine bl p = some bc ∧
        bestLine p lines none = some (bl, bc) ∧
        (∀ l ∈ pre, ∀ c, nearestOnLine l p = some c → dist2 p bc < dist2 p c) ∧
        (∀ l ∈ suf, ∀ c, nearestOnLine l p = some c → dist2 p bc ≤ dist2 p c)) := by
  intro lines
  induction lines with
  | nil => left; simp
  | cons l rest ih =>
    cases hnol : nearestOnLine l p with
    | none =>
      rcases ih with hall | ⟨pre, bl, suf, bc, hsplit, hnbc, heq, hpre, hsuf⟩
      · left
        intro l2 hl2
        rcases List.mem_cons.mp hl2 with rfl | hl3
        · exact hnol
        · exact hall l2 hl3
      · right
        refine ⟨l :: pre, bl, suf, bc, by rw [hsplit]; rfl, hnbc,
          by simp [bestLine, hnol, heq], ?_, hsuf⟩
        intro l2 hl2 c hc
        rcases List.mem_cons.mp hl2 with rfl | hl3
        · rw [hnol] at hc
          exact absurd hc (by simp)
        · exact hpre l2 hl3 c hc
    | some c =>
      right
      rcases bestLine_some_spec p rest l c with ⟨heq, hall⟩ |
        ⟨pre, bl, suf, bc, hsplit, hnbc, heq, hlt2, hpre, hsuf⟩
      · exact ⟨[], l, rest, c, by simp, hnol, by simp [bestLine, hnol, heq], by simp, hall⟩
      · refine ⟨l :: pre, bl, suf, bc, by rw [hsplit]; rfl, hnbc,
          by simp [bestLine, hnol, heq], ?_, hsuf⟩
        intro l2 hl2 c2 hc2
        rcases List.mem_cons.mp hl2 with rfl | hl3
        · have : c2 = c := by
            rw [hnol] at hc2
            exact (Option.some_inj.mp hc2).symm
          rw [this]
          exact hlt2
        · exact hpre l2 hl3 c2 hc2

theorem segsOf_ne_nil (l : List Pt) (h : 2 ≤ l.length) : segsOf l ≠ [] := by
  match l with
  | [] => simp at h
  | [a] => simp at h
  | a :: b :: rest => simp [segsOf]

theorem nearestOnLine_isSome (l : List Pt) (p : Pt) (h : 2 ≤ l.length) :
    ∃ c, nearestOnLine l p = some c := by
  obtain ⟨c, heq, _, _⟩ := nearestOnLine_spec l p (segsOf_ne_nil l h)
  exact ⟨c, heq⟩

/-- C5: snap_to_line selects the first span (in iteration order, under
strict less-than updates) whose nearest point attains the minimum distance
to the query point; the selected candidate is a point of the selected span
polyline and minimizes the distance over every point of every span; the
returned value snaps the candidate to the selected span's first vertex
when within tolerance, else to its last vertex when within tolerance, else
returns the candidate itself. -/
theorem snap_to_line_spec (p : Pt) (lines : List (List Pt)) (tol : ℚ)
    (hne : lines ≠ []) (hlen : ∀ l ∈ lines, 2 ≤ l.length) :
    ∃ pre bl suf c, lines = pre ++ bl :: suf ∧ nearestOnLine bl p = some c ∧
      (∃ ab ∈ segsOf bl, ∃ t, 0 ≤ t ∧ t ≤ 1 ∧ c = lerp ab.1 ab.2 t) ∧
      (∀ l ∈ pre, ∀ c2, nearestOnLine l p = some c2 → dist2 p c < dist2 p c2) ∧
      (∀ l ∈ lines, ∀ c2, nearestOnLine l p = some c2 → dist2 p c ≤ dist2 p c2) ∧
      (∀ l ∈ lines, ∀ ab ∈ segsOf l, ∀ t, 0 ≤ t → t ≤ 1 →
        dist2 p c ≤ dist2 p (lerp ab.1 ab.2 t)) ∧
      snap_to_line p lines tol =
        some (if dist2 c (bl.headD dPt) < tol ^ 2 then bl.headD dPt
          else if dist2 c (bl.getLastD dPt) < tol ^ 2 then bl.getLastD dPt else c) := by
  rcases bestLine_none_spec p lines with hall | ⟨pre, bl, suf, bc, hsplit, hnbc, heq, hpre, hsuf⟩
  · cases lines with
    | nil => exact absurd rfl hne
    | cons l rest =>
      obtain ⟨c, hc⟩ := nearestOnLine_isSome l p (hlen l (List.mem_cons_self l rest))
      rw [hall l (List.mem_cons_self l rest)] at hc
      exact absurd hc (by simp)
  · have hmin : ∀ l ∈ lines, ∀ c2, nearestOnLine l p = some c2 → dist2 p bc ≤ dist2 p c2 := by
      intro l hl c2 hc2
      rw [hsplit] at hl
      rcases List.mem_append.mp hl with hl2 | hl2
      · exact le_of_lt (hpre l hl2 c2 hc2)
      · rcases List.mem_cons.mp hl2 with rfl | hl3
        · have : c2 = bc := by
            rw [hnbc] at hc2
            exact (Option.some_inj.mp hc2).symm
          rw [this]
        · exact hsuf l hl3 c2 hc2
    refine ⟨pre, bl, suf, bc, hsplit, hnbc, ?_, hpre, hmin, ?_, ?_⟩
    · exact nearestOnLine_on_line bl p bc hnbc
    · intro l hl ab hab t h0 h1
      obtain ⟨c2, hc2⟩ := nearestOnLine_isSome l p (hlen l hl)
      exact le_trans (hmin l hl c2 hc2) (nearestOnLine_min l p c2 hc2 ab hab t h0 h1)
    · unfold snap_to_line
      rw [heq]
      dsimp only
      split_ifs <;> rfl

/-- Witness for the C5 theorem at a concrete input. -/
theorem snap_to_line_spec_witness :
    ([[((1 : ℚ), (-1 : ℚ)), (1, 1)]] ≠ ([] : List (List Pt))) ∧
      (∀ l ∈ [[((1 : ℚ), (-1 : ℚ)), (1, 1)]], 2 ≤ l.length) ∧
      (∃ pre bl suf c,
        [[((1 : ℚ), (-1 : ℚ)), (1, 1)]] = pre ++ bl :: suf ∧
        nearestOnLine bl (0, 0) = some c ∧
        (∃ ab ∈ segsOf bl, ∃ t, 0 ≤ t ∧ t ≤ 1 ∧ c = lerp ab.1 ab.2 t) ∧
        (∀ l ∈ pre, ∀ c2, nearestOnLine l (0, 0) = some c2 →
          dist2 (0, 0) c < dist2 (0, 0) c2) ∧
        (∀ l ∈ [[((1 : ℚ), (-1 : ℚ)), (1, 1)]], ∀ c2,
          nearestOnLine l (0, 0) = some c2 → dist2 (0, 0) c ≤ dist2 (0, 0) c2) ∧
        (∀ l ∈ [[((1 : ℚ), (-1 : ℚ)), (1, 1)]], ∀ ab ∈ segsOf l, ∀ t, 0 ≤ t → t ≤ 1 →
          dist2 (0, 0) c ≤ dist2 (0, 0) (lerp ab.1 ab.2 t)) ∧
        snap_to_line (0, 0) [[((1 : ℚ), (-1 : ℚ)), (1, 1)]] (1 / 10000) =
          some (if dist2 c (bl.headD dPt) < (1 / 10000) ^ 2 then bl.headD dPt
            else if dist2 c (bl.getLastD dPt) < (1 / 10000) ^ 2 then bl.getLastD dPt
            else c)) :=
  ⟨by simp, by simp,
    snap_to_line_spec (0, 0) [[((1 : ℚ), (-1 : ℚ)), (1, 1)]] (1 / 10000)
      (by simp) (by simp)⟩

end Kml2Ofds
